import Mathlib

/-!
Verification of the AETHER-OS append-only audit ledger (crates aether-core
and aether-ledger): block model, canonical string, SHA-256 chain hashing,
chain verification, the in-memory tenant-keyed storage, and the verifier
orchestrator. Definitions are shallow embeddings of the Rust source;
machine integers are modelled as Nat with explicit reduction mod 2^32
where the SHA-256 compression function needs it.
-/

set_option maxRecDepth 4096

/-! ## Typed identifiers (aether-core/src/ids.rs)

Each Rust id type is a UUID newtype whose only observable behaviour in the
ledger subsystem is its Display rendering and equality; we model each as a
distinct wrapper around its rendered string form. -/

/-- Unique identifier for a tenant (UUID newtype, modelled by its rendered string). -/
structure TenantId where
  val : String
deriving DecidableEq, Repr

/-- Unique identifier for an agent instance. -/
structure AgentId where
  val : String
deriving DecidableEq, Repr

/-- Unique identifier for a task. -/
structure TaskId where
  val : String
deriving DecidableEq, Repr

/-- Unique identifier for a registered tool. -/
structure ToolId where
  val : String
deriving DecidableEq, Repr

/-- Unique identifier for a ledger block. -/
structure LedgerBlockId where
  val : String
deriving DecidableEq, Repr

/-! ## Block model (aether-core/src/ledger.rs) -/

/-- SHA-256 hash represented as a hex string. -/
structure BlockHash where
  val : String
deriving DecidableEq, Repr

/-- Genesis block parent hash — all zeros ("0".repeat(64)). -/
def BlockHash.genesis : BlockHash :=
  ⟨String.mk (List.replicate 64 '0')⟩

/-- Rust char::is_ascii_hexdigit: matches 0-9, A-F, a-f. -/
def isAsciiHexdigit (c : Char) : Bool :=
  (('0' ≤ c && c ≤ '9') || ('A' ≤ c && c ≤ 'F') || ('a' ≤ c && c ≤ 'f'))

/-- UTF-8 encoding of one scalar value, as byte values (Nat). -/
def utf8Bytes (c : Char) : List Nat :=
  let n := c.toNat
  if n < 128 then [n]
  else if n < 2048 then [192 + n / 64, 128 + n % 64]
  else if n < 65536 then [224 + n / 4096, 128 + (n / 64) % 64, 128 + n % 64]
  else [240 + n / 262144, 128 + (n / 4096) % 64, 128 + (n / 64) % 64, 128 + n % 64]

/-- The UTF-8 bytes of a string (Rust str::as_bytes). -/
def strBytes (s : String) : List Nat :=
  s.data.flatMap utf8Bytes

/-- Validate hash length is 64 hex chars (SHA-256): Rust
self.0.len() == 64 (a byte length) && all chars are ascii hex digits. -/
def BlockHash.is_valid (h : BlockHash) : Bool :=
  (strBytes h.val).length == 64 && h.val.data.all isAsciiHexdigit

/-- The type of action recorded in a ledger block. -/
inductive LedgerAction where
  | ToolCall
  | CodeChange
  | MemoryWrite
  | MemoryDelete
  | AgentSpawn
  | AgentComplete
  | Deploy
  | HumanReview
  | ToolCreated
  | Compensation
deriving DecidableEq, Repr

/-- An immutable ledger block. The timestamp is modelled as a Nat (it is
informational only and never hashed). -/
structure LedgerBlock where
  id : LedgerBlockId
  sequence_number : Nat
  timestamp_utc : Nat
  tenant_id : TenantId
  agent_id : AgentId
  task_id : TaskId
  action : LedgerAction
  tool_id : Option ToolId
  input_hash : BlockHash
  output_hash : BlockHash
  parent_hash : BlockHash
  signature : Option String
deriving DecidableEq, Repr

/-- Build the string that is hashed for chain verification.
Format: block_id, sequence_number, input_hash, output_hash, parent_hash,
joined by the pipe character. -/
def LedgerBlock.canonical_string (b : LedgerBlock) : String :=
  b.id.val ++ "|" ++ toString b.sequence_number ++ "|" ++
    b.input_hash.val ++ "|" ++ b.output_hash.val ++ "|" ++ b.parent_hash.val

/-! ## SHA-256 (the sha2 crate as used by aether-ledger/src/chain.rs)

32-bit words are Nats kept below 2^32 by explicit mod. -/

/-- Addition mod 2^32. -/
def add32 (a b : Nat) : Nat :=
  (a + b) % 4294967296

/-- Right rotation of a 32-bit word by n places. -/
def rotr32 (n x : Nat) : Nat :=
  x / 2 ^ n + x % 2 ^ n * 2 ^ (32 - n)

/-- Logical right shift of a 32-bit word. -/
def shr32 (n x : Nat) : Nat :=
  x / 2 ^ n

/-- Bitwise complement on 32 bits. -/
def not32 (x : Nat) : Nat :=
  Nat.xor x 4294967295

/-- SHA-256 big Sigma 0. -/
def bigSigma0 (x : Nat) : Nat :=
  Nat.xor (Nat.xor (rotr32 2 x) (rotr32 13 x)) (rotr32 22 x)

/-- SHA-256 big Sigma 1. -/
def bigSigma1 (x : Nat) : Nat :=
  Nat.xor (Nat.xor (rotr32 6 x) (rotr32 11 x)) (rotr32 25 x)

/-- SHA-256 small sigma 0. -/
def smallSigma0 (x : Nat) : Nat :=
  Nat.xor (Nat.xor (rotr32 7 x) (rotr32 18 x)) (shr32 3 x)

/-- SHA-256 small sigma 1. -/
def smallSigma1 (x : Nat) : Nat :=
  Nat.xor (Nat.xor (rotr32 17 x) (rotr32 19 x)) (shr32 10 x)

/-- SHA-256 choice function. -/
def sha2ch (x y z : Nat) : Nat :=
  Nat.xor (Nat.land x y) (Nat.land (not32 x) z)

/-- SHA-256 majority function. -/
def sha2maj (x y z : Nat) : Nat :=
  Nat.xor (Nat.xor (Nat.land x y) (Nat.land x z)) (Nat.land y z)

/-- The 64 SHA-256 round constants. -/
def k256 : List Nat :=
  [1116352408, 1899447441, 3049323471, 3921009573,
   961987163, 1508970993, 2453635748, 2870763221,
   3624381080, 310598401, 607225278, 1426881987,
   1925078388, 2162078206, 2614888103, 3248222580,
   3835390401, 4022224774, 264347078, 604807628,
   770255983, 1249150122, 1555081692, 1996064986,
   2554220882, 2821834349, 2952996808, 3210313671,
   3336571891, 3584528711, 113926993, 338241895,
   666307205, 773529912, 1294757372, 1396182291,
   1695183700, 1986661051, 2177026350, 2456956037,
   2730485921, 2820302411, 3259730800, 3345764771,
   3516065817, 3600352804, 4094571909, 275423344,
   430227734, 506948616, 659060556, 883997877,
   958139571, 1322822218, 1537002063, 1747873779,
   1955562222, 2024104815, 2227730452, 2361852424,
   2428436474, 2756734187, 3204031479, 3329325298]

/-- The working state of the SHA-256 compression function. -/
structure Sha256State where
  a : Nat
  b : Nat
  c : Nat
  d : Nat
  e : Nat
  f : Nat
  g : Nat
  h : Nat
deriving Repr

/-- The SHA-256 initial hash value. -/
def sha256Init : Sha256State :=
  ⟨1779033703, 3144134277, 1013904242, 2773480762,
   1359893119, 2600822924, 528734635, 1541459225⟩

/-- Big-endian byte decomposition of a value into n bytes. -/
def toBytesBE (n v : Nat) : List Nat :=
  (List.range n).map (fun i => v / 2 ^ (8 * (n - 1 - i)) % 256)

/-- SHA-256 padding: append 0x80, zero bytes to 56 mod 64, then the 64-bit
big-endian bit length. -/
def padMessage (msg : List Nat) : List Nat :=
  let padZeros := (119 - msg.length % 64) % 64
  msg ++ [128] ++ List.replicate padZeros 0 ++ toBytesBE 8 (msg.length * 8)

/-- Split a byte list into 64-byte chunks. -/
def chunks64 (l : List Nat) : List (List Nat) :=
  if h : l = [] then []
  else l.take 64 :: chunks64 (l.drop 64)
termination_by l.length
decreasing_by
  simp only [List.length_drop]
  have := List.length_pos.mpr h
  omega

/-- The i-th big-endian 32-bit word of a chunk. -/
def word32At (chunk : List Nat) (i : Nat) : Nat :=
  chunk.getD (4 * i) 0 * 16777216 + chunk.getD (4 * i + 1) 0 * 65536 +
    chunk.getD (4 * i + 2) 0 * 256 + chunk.getD (4 * i + 3) 0

/-- Extend the 16-word message block by n further schedule words. -/
def extendSchedule (w : List Nat) : Nat → List Nat
  | 0 => w
  | n + 1 =>
    let w' := extendSchedule w n
    let len := w'.length
    w' ++ [add32 (add32 (smallSigma1 (w'.getD (len - 2) 0)) (w'.getD (len - 7) 0))
             (add32 (smallSigma0 (w'.getD (len - 15) 0)) (w'.getD (len - 16) 0))]

/-- The 64-entry SHA-256 message schedule of a 64-byte chunk. -/
def messageSchedule (chunk : List Nat) : List Nat :=
  extendSchedule ((List.range 16).map (word32At chunk)) 48

/-- One round of the SHA-256 compression function. -/
def compressStep (st : Sha256State) (wk : Nat × Nat) : Sha256State :=
  let t1 := add32 st.h (add32 (bigSigma1 st.e) (add32 (sha2ch st.e st.f st.g) (add32 wk.2 wk.1)))
  let t2 := add32 (bigSigma0 st.a) (sha2maj st.a st.b st.c)
  ⟨add32 t1 t2, st.a, st.b, st.c, add32 st.d t1, st.e, st.f, st.g⟩

/-- Process one 64-byte chunk, updating the running hash state. -/
def processChunk (hs : Sha256State) (chunk : List Nat) : Sha256State :=
  let final := ((messageSchedule chunk).zip k256).foldl compressStep hs
  ⟨add32 hs.a final.a, add32 hs.b final.b, add32 hs.c final.c, add32 hs.d final.d,
   add32 hs.e final.e, add32 hs.f final.f, add32 hs.g final.g, add32 hs.h final.h⟩

/-- The SHA-256 digest of a byte sequence, as 32 bytes. -/
def sha256 (msg : List Nat) : List Nat :=
  let final := (chunks64 (padMessage msg)).foldl processChunk sha256Init
  [final.a, final.b, final.c, final.d, final.e, final.f, final.g, final.h].flatMap (toBytesBE 4)

/-- Lowercase hex digit for a value below 16. -/
def hexChar (n : Nat) : Char :=
  Char.ofNat (if n < 10 then 48 + n else 87 + n)

/-- Lowercase hex encoding of a byte sequence, two digits per byte
(the sha2 LowerHex formatting used by format with the x specifier). -/
def bytesToHex (bs : List Nat) : String :=
  String.mk (bs.flatMap (fun b => [hexChar (b / 16), hexChar (b % 16)]))

/-- Lowercase hex SHA-256 of a string's UTF-8 bytes. -/
def sha256hex (s : String) : String :=
  bytesToHex (sha256 (strBytes s))

/-! ## Chain hashing and verification (aether-ledger/src/chain.rs) -/

/-- Compute the block's own hash (used as the parent_hash by the next
block): the lowercase hex SHA-256 of the canonical string. -/
def compute_block_hash (block : LedgerBlock) : BlockHash :=
  ⟨sha256hex block.canonical_string⟩

/-! ## Errors (aether-core/src/error.rs)

Only the error variants reachable from the ledger subsystem are embedded,
together with StorageError, which the error hierarchy reserves for
infrastructure storage failures. -/

/-- Stable error codes (the SCREAMING_SNAKE_CASE identifiers of error.rs). -/
inductive ErrorCode where
  | Unauthorized
  | Forbidden
  | TenantNotFound
  | TenantQuotaExceeded
  | NotFound
  | AlreadyExists
  | Conflict
  | ValidationFailed
  | InvalidSchema
  | ToolExecutionFailed
  | ToolTimeout
  | ToolAccessDenied
  | SandboxError
  | AgentSpawnFailed
  | MaxDepthExceeded
  | BudgetExceeded
  | BudgetLimitReached
  | StorageError
  | LedgerIntegrityViolation
  | SerializationError
  | Internal
  | NotImplemented
deriving DecidableEq, Repr

/-- The AetherError variants constructed or referenced by the ledger
subsystem (NotFound, LedgerIntegrityViolation, StorageError,
SerializationError, Internal, NotImplemented). -/
inductive AetherError where
  | NotFound (resource : String) (id : String)
  | LedgerIntegrityViolation (block_id : String) (reason : String)
  | StorageError (msg : String)
  | SerializationError (msg : String)
  | Internal (msg : String)
  | NotImplemented (msg : String)
deriving DecidableEq, Repr

/-- Return the stable error code (error.rs code()). -/
def AetherError.code : AetherError → ErrorCode
  | .NotFound _ _ => .NotFound
  | .LedgerIntegrityViolation _ _ => .LedgerIntegrityViolation
  | .StorageError _ => .StorageError
  | .SerializationError _ => .SerializationError
  | .Internal _ => .Internal
  | .NotImplemented _ => .NotImplemented

/-- Helper AetherError::not_found. -/
def AetherError.not_found (resource : String) (id : String) : AetherError :=
  .NotFound resource id

/-- Helper AetherError::internal. -/
def AetherError.internal (msg : String) : AetherError :=
  .Internal msg

/-! ## Chain verification (aether-ledger/src/chain.rs) -/

/-- The error produced when the first block's parent is not genesis. -/
def firstBlockError (b : LedgerBlock) : AetherError :=
  AetherError.LedgerIntegrityViolation b.id.val "first block parent_hash is not genesis"

/-- The error produced when an adjacent pair's hash link is broken. -/
def pairMismatchError (prev curr : LedgerBlock) : AetherError :=
  AetherError.LedgerIntegrityViolation curr.id.val
    ("parent_hash mismatch at seq " ++ toString curr.sequence_number ++
      ": expected " ++ (compute_block_hash prev).val ++ ", got " ++ curr.parent_hash.val)

/-- The windows(2) loop of verify_chain: check each adjacent pair's link. -/
def checkLinks : List LedgerBlock → Except AetherError Unit
  | [] => Except.ok ()
  | [_] => Except.ok ()
  | prev :: curr :: rest =>
    if curr.parent_hash ≠ compute_block_hash prev then Except.error (pairMismatchError prev curr)
    else checkLinks (curr :: rest)

/-- Verify the integrity of an ordered sequence of ledger blocks: empty
succeeds; the first block's parent must be genesis; every adjacent pair
must be hash-linked. -/
def verify_chain (blocks : List LedgerBlock) : Except AetherError Unit :=
  match blocks with
  | [] => Except.ok ()
  | b0 :: _ =>
    if b0.parent_hash ≠ BlockHash.genesis then Except.error (firstBlockError b0)
    else checkLinks blocks

/-! ## In-memory storage (aether-ledger/src/storage.rs)

The RwLock-guarded HashMap from tenant key to block vector is modelled as
an association list plus a poisoned flag; a poisoned lock makes every
operation fail the way the Rust map_err branches do. -/

/-- Display text of a std::sync::PoisonError, as interpolated into the
lock-failure message. -/
def poisonErrMsg : String := "poisoned lock: another task failed inside"

/-- The error every storage operation returns when the shared lock is
poisoned: AetherError::internal with the interpolated poison message. -/
def lockPoisonedError : AetherError :=
  AetherError.internal ("ledger lock poisoned: " ++ poisonErrMsg)

/-- HashMap::get on the tenant-keyed store (cloned().unwrap_or_default()). -/
def storeGet : List (String × List LedgerBlock) → String → List LedgerBlock
  | [], _ => []
  | (k, v) :: rest, t => if k = t then v else storeGet rest t

/-- HashMap::entry(key).or_default().push(block). -/
def storePush : List (String × List LedgerBlock) → String → LedgerBlock →
    List (String × List LedgerBlock)
  | [], t, b => [(t, [b])]
  | (k, v) :: rest, t, b =>
    if k = t then (k, v ++ [b]) :: rest else (k, v) :: storePush rest t b

/-- The values() scan of get_block: first block with the given id in any
tenant's vector. -/
def findInValues : List (String × List LedgerBlock) → LedgerBlockId → Option LedgerBlock
  | [], _ => none
  | (_, v) :: rest, id =>
    match v.find? (fun b => b.id == id) with
    | some b => some b
    | none => findInValues rest id

/-- In-memory ledger storage: tenant key to ordered block list, guarded by
one RwLock whose poisoned state is explicit. -/
structure InMemoryLedgerStorage where
  poisoned : Bool
  blocks : List (String × List LedgerBlock)
deriving DecidableEq, Repr

/-- InMemoryLedgerStorage::new(). -/
def InMemoryLedgerStorage.new : InMemoryLedgerStorage :=
  ⟨false, []⟩

/-- Append a block under its tenant's key, or fail if the lock is
poisoned. State passing stands in for the &self mutation. -/
def InMemoryLedgerStorage.append (s : InMemoryLedgerStorage) (block : LedgerBlock) :
    Except AetherError InMemoryLedgerStorage :=
  if s.poisoned then Except.error lockPoisonedError
  else Except.ok { s with blocks := storePush s.blocks block.tenant_id.val block }

/-- Fetch all blocks stored under a tenant's key. -/
def InMemoryLedgerStorage.get_blocks (s : InMemoryLedgerStorage) (tenant_id : TenantId) :
    Except AetherError (List LedgerBlock) :=
  if s.poisoned then Except.error lockPoisonedError
  else Except.ok (storeGet s.blocks tenant_id.val)

/-- Get a single block by id, regardless of tenant. -/
def InMemoryLedgerStorage.get_block (s : InMemoryLedgerStorage) (block_id : LedgerBlockId) :
    Except AetherError LedgerBlock :=
  if s.poisoned then Except.error lockPoisonedError
  else
    match findInValues s.blocks block_id with
    | some b => Except.ok b
    | none => Except.error (AetherError.not_found "LedgerBlock" block_id.val)

/-- Count total blocks for a tenant. -/
def InMemoryLedgerStorage.count (s : InMemoryLedgerStorage) (tenant_id : TenantId) :
    Except AetherError Nat :=
  if s.poisoned then Except.error lockPoisonedError
  else Except.ok (storeGet s.blocks tenant_id.val).length

/-- Run a sequence of append calls, stopping at the first failure. -/
def appendAll (s : InMemoryLedgerStorage) : List LedgerBlock →
    Except AetherError InMemoryLedgerStorage
  | [] => Except.ok s
  | b :: bs =>
    match s.append b with
    | Except.error e => Except.error e
    | Except.ok s' => appendAll s' bs

/-- The pure result of a sequence of appends on an unpoisoned store. -/
def appendList (s : InMemoryLedgerStorage) (bs : List LedgerBlock) : InMemoryLedgerStorage :=
  bs.foldl (fun st b => { st with blocks := storePush st.blocks b.tenant_id.val b }) s

/-! ## Verifier orchestrator (aether-ledger/src/verify.rs) -/

/-- Result of a ledger verification. -/
structure VerificationReport where
  tenant_id : TenantId
  blocks_verified : Nat
  intact : Bool
deriving DecidableEq, Repr

/-- Fetch all blocks for a tenant and verify the hash chain; the question
mark operator of the Rust body is the explicit error match. -/
def verify_tenant (s : InMemoryLedgerStorage) (tenant_id : TenantId) :
    Except AetherError VerificationReport :=
  match s.get_blocks tenant_id with
  | Except.error e => Except.error e
  | Except.ok blocks =>
    match verify_chain blocks with
    | Except.error e => Except.error e
    | Except.ok _ => Except.ok ⟨tenant_id, blocks.length, true⟩

/-! ## Concrete sample data for witnesses and counterexamples -/

/-- A 64-character string of one repeated character. -/
def rep64 (c : Char) : String :=
  String.mk (List.replicate 64 c)

/-- Sample tenant A. -/
def tenantA : TenantId := ⟨"aaaaaaaa-1111-4111-8111-111111111111"⟩

/-- Sample tenant B, distinct from A. -/
def tenantB : TenantId := ⟨"bbbbbbbb-2222-4222-8222-222222222222"⟩

/-- A well-formed first block for tenant A: parent is genesis. -/
def blk1 : LedgerBlock :=
  { id := ⟨"11111111-aaaa-4aaa-8aaa-aaaaaaaaaaaa"⟩
    sequence_number := 1
    timestamp_utc := 1700000000
    tenant_id := tenantA
    agent_id := ⟨"aaaa1111-aaaa-4aaa-8aaa-aaaaaaaaaaaa"⟩
    task_id := ⟨"aaaa2222-aaaa-4aaa-8aaa-aaaaaaaaaaaa"⟩
    action := LedgerAction.ToolCall
    tool_id := none
    input_hash := ⟨rep64 'a'⟩
    output_hash := ⟨rep64 'b'⟩
    parent_hash := BlockHash.genesis
    signature := none }

/-- A block like blk1 in all five chained fields but differing in every
unchained field (timestamp, tenant, agent, task, action, tool, signature). -/
def blk1' : LedgerBlock :=
  { id := blk1.id
    sequence_number := blk1.sequence_number
    timestamp_utc := 1800000000
    tenant_id := tenantB
    agent_id := ⟨"bbbb1111-bbbb-4bbb-8bbb-bbbbbbbbbbbb"⟩
    task_id := ⟨"bbbb2222-bbbb-4bbb-8bbb-bbbbbbbbbbbb"⟩
    action := LedgerAction.MemoryWrite
    tool_id := some ⟨"cccc1111-cccc-4ccc-8ccc-cccccccccccc"⟩
    input_hash := blk1.input_hash
    output_hash := blk1.output_hash
    parent_hash := blk1.parent_hash
    signature := some "sig" }

/-- A first block whose parent is not genesis (sequence number 5, so the
fixed first-block reason visibly omits it). -/
def blkBad : LedgerBlock :=
  { blk1 with
    id := ⟨"55555555-aaaa-4aaa-8aaa-aaaaaaaaaaaa"⟩
    sequence_number := 5
    parent_hash := ⟨rep64 'a'⟩ }

/-- A block for tenant A with sequence number 2, appended first in the
out-of-order counterexample. -/
def blkS2 : LedgerBlock :=
  { blk1 with
    id := ⟨"22222222-aaaa-4aaa-8aaa-aaaaaaaaaaaa"⟩
    sequence_number := 2 }

/-- A block for tenant A with sequence number 1, appended second in the
out-of-order counterexample. -/
def blkS1 : LedgerBlock :=
  { blk1 with
    id := ⟨"33333333-aaaa-4aaa-8aaa-aaaaaaaaaaaa"⟩
    sequence_number := 1 }

/-- The storage state reached by appending blkS2 then blkS1 to a fresh
store. -/
def cexState : InMemoryLedgerStorage :=
  ⟨false, [(tenantA.val, [blkS2, blkS1])]⟩

/-- The storage state reached by appending blk1 to a fresh store. -/
def oneBlockState : InMemoryLedgerStorage :=
  ⟨false, [(tenantA.val, [blk1])]⟩

/-- A storage state whose lock is poisoned. -/
def poisonedState : InMemoryLedgerStorage :=
  ⟨true, []⟩

/-! ## Helper lemmas -/

/-- An ASCII scalar encodes to a single UTF-8 byte. -/
lemma utf8Bytes_ascii (c : Char) (h : c.toNat < 128) : utf8Bytes c = [c.toNat] := by
  simp [utf8Bytes, h]

/-- Every ASCII hex digit is an ASCII scalar. -/
lemma toNat_lt_of_hexdigit (c : Char) (h : isAsciiHexdigit c = true) : c.toNat < 128 := by
  simp only [isAsciiHexdigit, Bool.or_eq_true, Bool.and_eq_true, decide_eq_true_eq] at h
  rcases h with (⟨_, h2⟩ | ⟨_, h2⟩) | ⟨_, h2⟩ <;>
    exact Nat.lt_of_le_of_lt (show Char.toNat _ ≤ Char.toNat _ from h2) (by decide)

/-- On an all-hex character list, UTF-8 byte count equals character count. -/
lemma flatMap_utf8_length (l : List Char) (h : ∀ c ∈ l, isAsciiHexdigit c = true) :
    (l.flatMap utf8Bytes).length = l.length := by
  induction l with
  | nil => rfl
  | cons c l ih =>
    have hc : utf8Bytes c = [c.toNat] :=
      utf8Bytes_ascii c (toNat_lt_of_hexdigit c (h c (List.mem_cons_self c l)))
    simp [hc, ih (fun x hx => h x (List.mem_cons_of_mem c hx))]

/-- TenantId is determined by its rendered string. -/
lemma tenantId_val_inj {a b : TenantId} (h : a.val = b.val) : a = b := by
  cases a
  cases b
  cases h
  rfl

/-- Pushing under key t appends to that key's list and leaves others unchanged. -/
lemma storeGet_storePush (m : List (String × List LedgerBlock)) (t t' : String) (b : LedgerBlock) :
    storeGet (storePush m t b) t' = storeGet m t' ++ (if t' = t then [b] else []) := by
  induction m with
  | nil =>
    by_cases h : t = t'
    · subst h
      simp [storePush, storeGet]
    · simp [storePush, storeGet, h, Ne.symm h]
  | cons kv rest ih =>
    obtain ⟨k, v⟩ := kv
    simp only [storePush]
    by_cases hk : k = t
    · subst hk
      simp only [if_pos rfl, storeGet]
      by_cases ht : k = t'
      · subst ht
        simp
      · simp [ht, Ne.symm ht]
    · simp only [if_neg hk, storeGet]
      by_cases ht : k = t'
      · subst ht
        simp [hk]
      · simp [ht, ih]

/-- A sequence of appends never changes the poisoned flag. -/
lemma appendList_poisoned (bs : List LedgerBlock) :
    ∀ s : InMemoryLedgerStorage, (appendList s bs).poisoned = s.poisoned := by
  induction bs with
  | nil => intro s; rfl
  | cons b bs ih => intro s; exact ih _

/-- On an unpoisoned store, appendAll succeeds and computes appendList. -/
lemma appendAll_eq_appendList (bs : List LedgerBlock) :
    ∀ s : InMemoryLedgerStorage, s.poisoned = false →
      appendAll s bs = Except.ok (appendList s bs) := by
  induction bs with
  | nil => intro s _; rfl
  | cons b bs ih =>
    intro s hs
    have h1 : s.append b = Except.ok { s with blocks := storePush s.blocks b.tenant_id.val b } := by
      simp [InMemoryLedgerStorage.append, hs]
    have hcons : appendList s (b :: bs) =
        appendList { s with blocks := storePush s.blocks b.tenant_id.val b } bs := rfl
    simp only [appendAll, h1, hcons]
    exact ih _ hs

/-- The tenant view of the store after a sequence of appends: the prior
view followed by exactly the appended blocks carrying that tenant key,
in append order. -/
lemma storeGet_appendList (bs : List LedgerBlock) :
    ∀ (s : InMemoryLedgerStorage) (t : String),
      storeGet (appendList s bs).blocks t =
        storeGet s.blocks t ++ bs.filter (fun b => b.tenant_id.val == t) := by
  induction bs with
  | nil => intro s t; simp [appendList]
  | cons b bs ih =>
    intro s t
    have hcons : appendList s (b :: bs) =
        appendList { s with blocks := storePush s.blocks b.tenant_id.val b } bs := rfl
    rw [hcons, ih, List.filter_cons]
    simp only [storeGet_storePush]
    by_cases ht : t = b.tenant_id.val
    · simp [ht, List.append_assoc]
    · have : (b.tenant_id.val == t) = false := by
        simpa using fun hh => ht hh.symm
      simp [ht, this]

/-- All blocks held anywhere in the tenant-keyed map. -/
def storeAll (m : List (String × List LedgerBlock)) : List LedgerBlock :=
  m.flatMap (fun p => p.2)

/-- Membership in the store after a push. -/
lemma mem_storeAll_storePush (m : List (String × List LedgerBlock)) (t : String)
    (b a : LedgerBlock) :
    a ∈ storeAll (storePush m t b) ↔ a ∈ storeAll m ∨ a = b := by
  induction m with
  | nil => simp [storePush, storeAll]
  | cons kv rest ih =>
    obtain ⟨k, v⟩ := kv
    by_cases hk : k = t
    · subst hk
      have hp : storePush ((k, v) :: rest) k b = (k, v ++ [b]) :: rest := by
        simp [storePush]
      rw [hp]
      simp only [storeAll, List.flatMap_cons, List.mem_append, List.mem_singleton]
      tauto
    · simp only [storePush, if_neg hk, storeAll, List.flatMap_cons, List.mem_append] at ih ⊢
      rw [ih]
      tauto

/-- Membership in the store after a sequence of appends. -/
lemma mem_storeAll_appendList (bs : List LedgerBlock) :
    ∀ (s : InMemoryLedgerStorage) (a : LedgerBlock),
      a ∈ storeAll (appendList s bs).blocks ↔ a ∈ storeAll s.blocks ∨ a ∈ bs := by
  induction bs with
  | nil => intro s a; simp [appendList]
  | cons b bs ih =>
    intro s a
    have hcons : appendList s (b :: bs) =
        appendList { s with blocks := storePush s.blocks b.tenant_id.val b } bs := rfl
    rw [hcons, ih]
    simp [mem_storeAll_storePush, or_assoc, or_comm, or_left_comm]

/-- A hit of the get_block scan carries the searched id and is stored. -/
lemma findInValues_some (m : List (String × List LedgerBlock)) (id : LedgerBlockId)
    (b : LedgerBlock) (h : findInValues m id = some b) :
    b.id = id ∧ b ∈ storeAll m := by
  induction m with
  | nil => simp [findInValues] at h
  | cons kv rest ih =>
    obtain ⟨k, v⟩ := kv
    simp only [findInValues] at h
    cases hf : v.find? (fun x => x.id == id) with
    | some b' =>
      rw [hf] at h
      cases h
      have hid := List.find?_some hf
      refine ⟨by simpa using hid, ?_⟩
      simp only [storeAll, List.flatMap_cons, List.mem_append]
      exact Or.inl (List.mem_of_find?_eq_some hf)
    | none =>
      rw [hf] at h
      obtain ⟨h1, h2⟩ := ih h
      refine ⟨h1, ?_⟩
      simp only [storeAll, List.flatMap_cons, List.mem_append]
      exact Or.inr h2

/-- The get_block scan misses exactly when no stored block has the id. -/
lemma findInValues_eq_none_iff (m : List (String × List LedgerBlock)) (id : LedgerBlockId) :
    findInValues m id = none ↔ ∀ a ∈ storeAll m, a.id ≠ id := by
  induction m with
  | nil => simp [findInValues, storeAll]
  | cons kv rest ih =>
    obtain ⟨k, v⟩ := kv
    have hsplit : findInValues ((k, v) :: rest) id =
        match v.find? (fun x => x.id == id) with
        | some b => some b
        | none => findInValues rest id := rfl
    cases hf : v.find? (fun x => x.id == id) with
    | some b' =>
      rw [hsplit, hf]
      simp only [storeAll, List.flatMap_cons, List.mem_append]
      constructor
      · intro h
        exact Option.noConfusion h
      · intro h
        have hid := List.find?_some hf
        have hmem := List.mem_of_find?_eq_some hf
        exact absurd (show b'.id = id by simpa using hid) (h b' (Or.inl hmem))
    | none =>
      rw [hsplit, hf, ih]
      simp only [storeAll, List.flatMap_cons, List.mem_append]
      constructor
      · intro h a ha
        rcases ha with ha | ha
        · have := List.find?_eq_none.mp hf a ha
          simpa using this
        · exact h a ha
      · intro h a ha
        exact h a (Or.inr ha)

/-- The pair scan succeeds exactly when every adjacent pair is hash-linked. -/
lemma checkLinks_ok_iff (l : List LedgerBlock) :
    checkLinks l = Except.ok () ↔
      List.Chain' (fun p c => compute_block_hash p = c.parent_hash) l := by
  induction l with
  | nil => simp [checkLinks]
  | cons a l ih =>
    cases l with
    | nil => simp [checkLinks]
    | cons b l' =>
      rw [List.chain'_cons]
      by_cases hb : b.parent_hash = compute_block_hash a
      · have hcond : ¬(b.parent_hash ≠ compute_block_hash a) := fun hn => hn hb
        rw [show checkLinks (a :: b :: l') = checkLinks (b :: l') from if_neg hcond, ih]
        simp [hb.symm]
      · rw [show checkLinks (a :: b :: l') = Except.error (pairMismatchError a b) from
          if_pos hb]
        constructor
        · intro h
          exact Except.noConfusion h
        · rintro ⟨hc, -⟩
          exact absurd hc.symm hb

/-- A pair-scan failure is the mismatch error of some adjacent pair. -/
lemma checkLinks_error_shape (l : List LedgerBlock) (e : AetherError)
    (h : checkLinks l = Except.error e) :
    ∃ i prev curr, l[i]? = some prev ∧ l[i + 1]? = some curr ∧
      curr.parent_hash ≠ compute_block_hash prev ∧ e = pairMismatchError prev curr := by
  induction l with
  | nil => exact Except.noConfusion h
  | cons a l ih =>
    cases l with
    | nil => exact Except.noConfusion h
    | cons b l' =>
      by_cases hb : b.parent_hash ≠ compute_block_hash a
      · rw [show checkLinks (a :: b :: l') = Except.error (pairMismatchError a b) from
          if_pos hb] at h
        cases h
        exact ⟨0, a, b, by simp, by simp, hb, rfl⟩
      · rw [show checkLinks (a :: b :: l') = checkLinks (b :: l') from if_neg hb] at h
        obtain ⟨i, prev, curr, h1, h2, h3, h4⟩ := ih h
        exact ⟨i + 1, prev, curr, by simpa using h1, by simpa using h2, h3, h4⟩

/-- The pair scan either succeeds or reports an integrity violation. -/
lemma checkLinks_cases (l : List LedgerBlock) :
    checkLinks l = Except.ok () ∨
      ∃ bid reason, checkLinks l = Except.error (AetherError.LedgerIntegrityViolation bid reason) := by
  cases hc : checkLinks l with
  | ok u =>
    cases u
    exact Or.inl rfl
  | error e =>
    obtain ⟨i, prev, curr, _, _, _, h4⟩ := checkLinks_error_shape l e hc
    subst h4
    exact Or.inr ⟨curr.id.val, _, rfl⟩

/-- Equality of the five chained fields of two blocks. -/
def blockCoreEq (b b' : LedgerBlock) : Prop :=
  b.id = b'.id ∧ b.sequence_number = b'.sequence_number ∧
    b.input_hash = b'.input_hash ∧ b.output_hash = b'.output_hash ∧
    b.parent_hash = b'.parent_hash

/-! ## Claim theorems -/

/-- C1: verify_chain succeeds iff the list is empty, or the first block's
parent_hash is the genesis sentinel and every adjacent pair (prev, curr)
satisfies compute_block_hash prev = curr.parent_hash; in every other case
it fails with a LedgerIntegrityViolation. The right-hand side mentions
sequence numbers only through compute_block_hash, so no separate
uniqueness, contiguity or monotonicity condition is imposed on them. -/
theorem verify_chain_ok_iff (blocks : List LedgerBlock) :
    (verify_chain blocks = Except.ok () ↔
      (blocks = [] ∨
        ((∀ b0 ∈ blocks.head?, b0.parent_hash = BlockHash.genesis) ∧
          List.Chain' (fun p c => compute_block_hash p = c.parent_hash) blocks)))
    ∧ (verify_chain blocks = Except.ok () ∨
        ∃ bid reason,
          verify_chain blocks = Except.error (AetherError.LedgerIntegrityViolation bid reason)) := by
  constructor
  · cases blocks with
    | nil => simp [verify_chain]
    | cons b0 rest =>
      by_cases hg : b0.parent_hash = BlockHash.genesis
      · have h1 : verify_chain (b0 :: rest) = checkLinks (b0 :: rest) :=
          if_neg (fun hn => hn hg)
        rw [h1, checkLinks_ok_iff]
        simp [hg]
      · have h1 : verify_chain (b0 :: rest) = Except.error (firstBlockError b0) := if_pos hg
        rw [h1]
        constructor
        · intro h
          exact Except.noConfusion h
        · intro h
          rcases h with h | ⟨hh, -⟩
          · exact List.noConfusion h
          · exact absurd (hh b0 (by simp)) hg
  · cases blocks with
    | nil => exact Or.inl rfl
    | cons b0 rest =>
      by_cases hg : b0.parent_hash = BlockHash.genesis
      · have h1 : verify_chain (b0 :: rest) = checkLinks (b0 :: rest) :=
          if_neg (fun hn => hn hg)
        rw [h1]
        exact checkLinks_cases (b0 :: rest)
      · have h1 : verify_chain (b0 :: rest) = Except.error (firstBlockError b0) := if_pos hg
        rw [h1]
        exact Or.inr ⟨b0.id.val, "first block parent_hash is not genesis", rfl⟩

/-- C1 witness: the characterization applied at concrete inputs — the
empty chain verifies, and a single genesis-parented block verifies. -/
theorem verify_chain_ok_iff_witness :
    verify_chain ([] : List LedgerBlock) = Except.ok () ∧
      verify_chain [blk1] = Except.ok () :=
  ⟨(verify_chain_ok_iff []).1.mpr (Or.inl rfl),
   (verify_chain_ok_iff [blk1]).1.mpr (Or.inr ⟨by simp [blk1], by simp⟩)⟩

/-- C2: compute_block_hash is the lowercase hex SHA-256 of exactly the
pipe-delimited canonical string of the five chained fields, and two
blocks agreeing on those five fields hash identically regardless of any
other field. -/
theorem compute_block_hash_spec (b b' : LedgerBlock) (h : blockCoreEq b b') :
    compute_block_hash b =
      ⟨bytesToHex (sha256 (strBytes (b.id.val ++ "|" ++ toString b.sequence_number ++ "|" ++
        b.input_hash.val ++ "|" ++ b.output_hash.val ++ "|" ++ b.parent_hash.val)))⟩
    ∧ compute_block_hash b = compute_block_hash b' := by
  obtain ⟨h1, h2, h3, h4, h5⟩ := h
  refine ⟨rfl, ?_⟩
  unfold compute_block_hash sha256hex LedgerBlock.canonical_string
  rw [h1, h2, h3, h4, h5]

/-- C2 witness: blk1 and blk1' agree on the five chained fields while
differing in timestamp, tenant, agent, task, action, tool id and
signature, and their hashes coincide. -/
theorem compute_block_hash_spec_witness :
    blockCoreEq blk1 blk1' ∧ compute_block_hash blk1 = compute_block_hash blk1' :=
  ⟨⟨rfl, rfl, rfl, rfl, rfl⟩,
   (compute_block_hash_spec blk1 blk1' ⟨rfl, rfl, rfl, rfl, rfl⟩).2⟩

/-- C6 counterexample: on the single-block chain [blkBad] (sequence
number 5, parent not genesis) verify_chain fails with the fixed reason
"first block parent_hash is not genesis", whose text contains neither the
block's sequence number nor the expected hash (genesis) nor the actual
parent hash found — refuting the claim that every chain-integrity
violation includes all four data. -/
theorem verify_chain_error_detail_cex :
    verify_chain [blkBad] =
      Except.error (AetherError.LedgerIntegrityViolation blkBad.id.val
        "first block parent_hash is not genesis")
    ∧ ¬ List.IsInfix (toString blkBad.sequence_number).data
        "first block parent_hash is not genesis".data
    ∧ ¬ List.IsInfix BlockHash.genesis.val.data
        "first block parent_hash is not genesis".data
    ∧ ¬ List.IsInfix blkBad.parent_hash.val.data
        "first block parent_hash is not genesis".data :=
  ⟨rfl, by decide, by decide, by decide⟩

/-- C6 amended: every verify_chain failure is a LedgerIntegrityViolation;
an adjacent-pair mismatch carries the offending block's id and a reason
embedding its sequence number, the expected hash and the actual hash,
while a first-block mismatch carries the offending block's id and the
fixed reason "first block parent_hash is not genesis" with no sequence
number or hashes. -/
theorem verify_chain_error_shape (blocks : List LedgerBlock) (e : AetherError)
    (herr : verify_chain blocks = Except.error e) :
    (∃ b0 rest, blocks = b0 :: rest ∧ b0.parent_hash ≠ BlockHash.genesis ∧
      e = AetherError.LedgerIntegrityViolation b0.id.val
        "first block parent_hash is not genesis")
    ∨ (∃ i prev curr, blocks[i]? = some prev ∧ blocks[i + 1]? = some curr ∧
      curr.parent_hash ≠ compute_block_hash prev ∧
      e = AetherError.LedgerIntegrityViolation curr.id.val
        ("parent_hash mismatch at seq " ++ toString curr.sequence_number ++
          ": expected " ++ (compute_block_hash prev).val ++ ", got " ++
          curr.parent_hash.val)) := by
  cases blocks with
  | nil => exact Except.noConfusion herr
  | cons b0 rest =>
    by_cases hg : b0.parent_hash = BlockHash.genesis
    · have h1 : verify_chain (b0 :: rest) = checkLinks (b0 :: rest) :=
        if_neg (fun hn => hn hg)
      rw [h1] at herr
      obtain ⟨i, prev, curr, ha, hb, hc, hd⟩ := checkLinks_error_shape _ e herr
      exact Or.inr ⟨i, prev, curr, ha, hb, hc, by rw [hd]; rfl⟩
    · have h1 : verify_chain (b0 :: rest) = Except.error (firstBlockError b0) := if_pos hg
      rw [h1] at herr
      injection herr with he
      exact Or.inl ⟨b0, rest, rfl, hg, he.symm⟩

/-- C6 amended witness: the failure shape applied to the concrete failing
chain [blkBad], whose error is the first-block form. -/
theorem verify_chain_error_shape_witness :
    (∃ b0 rest, [blkBad] = b0 :: rest ∧ b0.parent_hash ≠ BlockHash.genesis ∧
      AetherError.LedgerIntegrityViolation blkBad.id.val
          "first block parent_hash is not genesis" =
        AetherError.LedgerIntegrityViolation b0.id.val
          "first block parent_hash is not genesis")
    ∨ (∃ i prev curr, [blkBad][i]? = some prev ∧ [blkBad][i + 1]? = some curr ∧
      curr.parent_hash ≠ compute_block_hash prev ∧
      AetherError.LedgerIntegrityViolation blkBad.id.val
          "first block parent_hash is not genesis" =
        AetherError.LedgerIntegrityViolation curr.id.val
          ("parent_hash mismatch at seq " ++ toString curr.sequence_number ++
            ": expected " ++ (compute_block_hash prev).val ++ ", got " ++
            curr.parent_hash.val)) :=
  verify_chain_error_shape [blkBad]
    (AetherError.LedgerIntegrityViolation blkBad.id.val
      "first block parent_hash is not genesis") rfl

/-- C3: verify_tenant returns a report exactly when the storage fetch
succeeds and verify_chain passes, and that report carries the tenant id,
the fetched block count and intact = true; a storage error is propagated
unchanged and a chain failure surfaces as the same error — no report with
intact = false is ever produced. -/
theorem verify_tenant_spec (s : InMemoryLedgerStorage) (t : TenantId) :
    (∀ r, verify_tenant s t = Except.ok r ↔
      ∃ blocks, s.get_blocks t = Except.ok blocks ∧ verify_chain blocks = Except.ok () ∧
        r = ⟨t, blocks.length, true⟩)
    ∧ (∀ e, verify_tenant s t = Except.error e ↔
      (s.get_blocks t = Except.error e ∨
        ∃ blocks, s.get_blocks t = Except.ok blocks ∧
          verify_chain blocks = Except.error e)) := by
  constructor
  · intro r
    unfold verify_tenant
    cases hg : s.get_blocks t with
    | error e' => simp
    | ok blocks =>
      cases hv : verify_chain blocks with
      | error e' => simp [hv]
      | ok u =>
        cases u
        simp only [hv]
        constructor
        · intro h
          injection h with h
          exact ⟨blocks, rfl, hv, h.symm⟩
        · rintro ⟨blocks', hb, -, hr⟩
          injection hb with hb
          subst hb
          rw [hr]
  · intro e
    unfold verify_tenant
    cases hg : s.get_blocks t with
    | error e' => simp
    | ok blocks =>
      cases hv : verify_chain blocks with
      | error e' => simp [hv]
      | ok u =>
        cases u
        simp [hv]

/-- C3 witness: on a fresh store every tenant audit returns the intact
report with zero blocks. -/
theorem verify_tenant_spec_witness :
    verify_tenant InMemoryLedgerStorage.new tenantA = Except.ok ⟨tenantA, 0, true⟩ :=
  ((verify_tenant_spec InMemoryLedgerStorage.new tenantA).1 ⟨tenantA, 0, true⟩).mpr
    ⟨[], rfl, rfl, rfl⟩

/-- C10: whenever get_blocks answers for a tenant, count answers with
exactly the length of that list — the two reads always agree on a
tenant's history size (in every storage state, hence after every sequence
of successful operations). -/
theorem count_agrees_get_blocks (s : InMemoryLedgerStorage) (t : TenantId)
    (blocks : List LedgerBlock) (h : s.get_blocks t = Except.ok blocks) :
    s.count t = Except.ok blocks.length := by
  unfold InMemoryLedgerStorage.get_blocks at h
  unfold InMemoryLedgerStorage.count
  cases hp : s.poisoned with
  | true =>
    rw [hp] at h
    simp at h
  | false =>
    rw [hp] at h
    simp only [Bool.false_eq_true, if_neg, if_false] at h ⊢
    injection h with h
    rw [h]

/-- C10 witness: on the two-block concrete state the reads agree. -/
theorem count_agrees_get_blocks_witness :
    cexState.count tenantA = Except.ok [blkS2, blkS1].length :=
  count_agrees_get_blocks cexState tenantA [blkS2, blkS1] rfl

/-- C4: tenant isolation of the in-memory storage — after any sequence of
successful appends none of which carries tenant B, count(B) is 0 and
get_blocks(B) is empty; and in general get_blocks only ever returns
blocks owned by the queried tenant. -/
theorem tenant_isolation (bs : List LedgerBlock) (B : TenantId)
    (s' : InMemoryLedgerStorage)
    (happ : appendAll InMemoryLedgerStorage.new bs = Except.ok s') :
    ((∀ b ∈ bs, b.tenant_id ≠ B) →
      s'.count B = Except.ok 0 ∧ s'.get_blocks B = Except.ok [])
    ∧ (∀ blocks, s'.get_blocks B = Except.ok blocks → ∀ b ∈ blocks, b.tenant_id = B) := by
  rw [appendAll_eq_appendList bs InMemoryLedgerStorage.new rfl] at happ
  injection happ with happ
  subst happ
  have hp : (appendList InMemoryLedgerStorage.new bs).poisoned = false :=
    appendList_poisoned bs _
  have hg : storeGet (appendList InMemoryLedgerStorage.new bs).blocks B.val =
      bs.filter (fun b => b.tenant_id.val == B.val) := by
    rw [storeGet_appendList]
    rfl
  constructor
  · intro hB
    have hfilter : bs.filter (fun b => b.tenant_id.val == B.val) = [] := by
      rw [List.filter_eq_nil_iff]
      intro a ha
      simp only [beq_iff_eq]
      exact fun hv => hB a ha (tenantId_val_inj hv)
    constructor
    · unfold InMemoryLedgerStorage.count
      rw [hp]
      simp [hg, hfilter]
    · unfold InMemoryLedgerStorage.get_blocks
      rw [hp]
      simp [hg, hfilter]
  · intro blocks hgb b hb
    unfold InMemoryLedgerStorage.get_blocks at hgb
    rw [hp] at hgb
    simp only [Bool.false_eq_true, if_false] at hgb
    injection hgb with hgb
    rw [← hgb, hg] at hb
    have := List.of_mem_filter hb
    exact tenantId_val_inj (by simpa using this)

/-- C4 witness: with one block appended for tenant A, tenant B sees
nothing. -/
theorem tenant_isolation_witness :
    oneBlockState.count tenantB = Except.ok 0 ∧
      oneBlockState.get_blocks tenantB = Except.ok [] :=
  (tenant_isolation [blk1] tenantB oneBlockState rfl).1 (by decide)

/-- C5 counterexample: appending blkS2 (sequence 2) then blkS1
(sequence 1) for the same tenant succeeds, yet get_blocks returns them in
append order [blkS2, blkS1], which is not ascending by sequence number —
refuting the claim that get_blocks sorts even for out-of-order appends. -/
theorem get_blocks_unsorted_cex :
    appendAll InMemoryLedgerStorage.new [blkS2, blkS1] = Except.ok cexState
    ∧ cexState.get_blocks tenantA = Except.ok [blkS2, blkS1]
    ∧ blkS2.sequence_number = 2 ∧ blkS1.sequence_number = 1
    ∧ ¬ List.Sorted (fun a b : LedgerBlock => a.sequence_number ≤ b.sequence_number)
        [blkS2, blkS1] :=
  ⟨rfl, rfl, rfl, rfl, by decide⟩

/-- C5 amended: get_blocks returns exactly the appended blocks of the
queried tenant in append (insertion) order — it does not sort; the result
is ascending by sequence number whenever the appends were issued in
ascending order, as the append contract requires. -/
theorem get_blocks_append_order (bs : List LedgerBlock) (s' : InMemoryLedgerStorage)
    (t : TenantId) (happ : appendAll InMemoryLedgerStorage.new bs = Except.ok s') :
    s'.get_blocks t = Except.ok (bs.filter (fun b => b.tenant_id == t))
    ∧ (List.Pairwise (fun a b : LedgerBlock => a.sequence_number ≤ b.sequence_number) bs →
        List.Sorted (fun a b : LedgerBlock => a.sequence_number ≤ b.sequence_number)
          (bs.filter (fun b => b.tenant_id == t))) := by
  rw [appendAll_eq_appendList bs InMemoryLedgerStorage.new rfl] at happ
  injection happ with happ
  subst happ
  have hpred : (fun b : LedgerBlock => b.tenant_id == t) =
      (fun b : LedgerBlock => b.tenant_id.val == t.val) := by
    funext b
    by_cases h : b.tenant_id = t
    · subst h
      simp
    · have hv : ¬ b.tenant_id.val = t.val := fun hv => h (tenantId_val_inj hv)
      simp [h, hv]
  constructor
  · unfold InMemoryLedgerStorage.get_blocks
    rw [appendList_poisoned bs _]
    rw [hpred, show storeGet (appendList InMemoryLedgerStorage.new bs).blocks t.val =
      bs.filter (fun b => b.tenant_id.val == t.val) from (storeGet_appendList bs _ t.val).trans
        (by rfl)]
    rfl
  · intro hpw
    exact hpw.sublist (List.filter_sublist bs)

/-- C5 amended witness: the insertion-order law applied to the concrete
out-of-order append history. -/
theorem get_blocks_append_order_witness :
    cexState.get_blocks tenantA =
      Except.ok ([blkS2, blkS1].filter (fun b => b.tenant_id == tenantA)) :=
  (get_blocks_append_order [blkS2, blkS1] cexState tenantA rfl).1

/-- C7: after any sequence of successful appends, get_block(id) returns
some stored block with that id whenever one was appended — regardless of
owning tenant — and fails with the not-found error exactly when no
appended block has that id. -/
theorem get_block_spec (bs : List LedgerBlock) (s' : InMemoryLedgerStorage)
    (id : LedgerBlockId)
    (happ : appendAll InMemoryLedgerStorage.new bs = Except.ok s') :
    ((∃ b ∈ bs, b.id = id) →
      ∃ b, s'.get_block id = Except.ok b ∧ b.id = id ∧ b ∈ bs)
    ∧ ((∀ b ∈ bs, b.id ≠ id) →
      s'.get_block id = Except.error (AetherError.NotFound "LedgerBlock" id.val)) := by
  rw [appendAll_eq_appendList bs InMemoryLedgerStorage.new rfl] at happ
  injection happ with happ
  subst happ
  have hp : (appendList InMemoryLedgerStorage.new bs).poisoned = false :=
    appendList_poisoned bs _
  have hmem : ∀ a : LedgerBlock,
      a ∈ storeAll (appendList InMemoryLedgerStorage.new bs).blocks ↔ a ∈ bs := by
    intro a
    rw [mem_storeAll_appendList]
    simp [InMemoryLedgerStorage.new, storeAll]
  constructor
  · rintro ⟨b, hb, hid⟩
    cases hf : findInValues (appendList InMemoryLedgerStorage.new bs).blocks id with
    | some b' =>
      obtain ⟨h1, h2⟩ := findInValues_some _ id b' hf
      refine ⟨b', ?_, h1, (hmem b').mp h2⟩
      unfold InMemoryLedgerStorage.get_block
      rw [hp]
      simp [hf]
    | none =>
      have := (findInValues_eq_none_iff _ id).mp hf b ((hmem b).mpr hb)
      exact absurd hid this
  · intro hnone
    have hf : findInValues (appendList InMemoryLedgerStorage.new bs).blocks id = none :=
      (findInValues_eq_none_iff _ id).mpr (fun a ha => hnone a ((hmem a).mp ha))
    unfold InMemoryLedgerStorage.get_block
    rw [hp]
    simp [hf, AetherError.not_found]

/-- C7 witness: the appended block blk1 is retrievable by its id from the
concrete one-block store. -/
theorem get_block_spec_witness :
    ∃ b, oneBlockState.get_block blk1.id = Except.ok b ∧ b.id = blk1.id ∧ b ∈ [blk1] :=
  (get_block_spec [blk1] oneBlockState blk1.id rfl).1 ⟨blk1, by simp, rfl⟩

/-- C8 counterexample: an append attempted while the shared lock is
poisoned fails with AetherError.Internal — whose code is Internal, not
StorageError — refuting the claim that lock failures surface with the
StorageError code. -/
theorem lock_error_not_storage_code :
    poisonedState.append blk1 = Except.error lockPoisonedError
    ∧ lockPoisonedError.code = ErrorCode.Internal
    ∧ lockPoisonedError.code ≠ ErrorCode.StorageError :=
  ⟨rfl, rfl, by decide⟩

/-- C8 amended: when the shared lock cannot be acquired every storage
operation fails with the Internal-coded lock-poisoned error (not
StorageError), and append never silently drops a block — on lock failure
it returns the error rather than ok, and otherwise it succeeds with the
block recorded under its tenant's key. -/
theorem lock_failure_spec (s : InMemoryLedgerStorage) (b : LedgerBlock) (t : TenantId)
    (id : LedgerBlockId) :
    (s.poisoned = true →
      s.append b = Except.error lockPoisonedError ∧
      s.get_blocks t = Except.error lockPoisonedError ∧
      s.get_block id = Except.error lockPoisonedError ∧
      s.count t = Except.error lockPoisonedError ∧
      lockPoisonedError.code = ErrorCode.Internal ∧
      lockPoisonedError.code ≠ ErrorCode.StorageError)
    ∧ (s.poisoned = false →
      ∃ s'', s.append b = Except.ok s'' ∧ b ∈ storeGet s''.blocks b.tenant_id.val) := by
  constructor
  · intro hp
    refine ⟨?_, ?_, ?_, ?_, rfl, by decide⟩ <;>
      simp [InMemoryLedgerStorage.append, InMemoryLedgerStorage.get_blocks,
        InMemoryLedgerStorage.get_block, InMemoryLedgerStorage.count, hp]
  · intro hp
    refine ⟨{ s with blocks := storePush s.blocks b.tenant_id.val b }, ?_, ?_⟩
    · simp [InMemoryLedgerStorage.append, hp]
    · rw [show storeGet (storePush s.blocks b.tenant_id.val b) b.tenant_id.val =
        storeGet s.blocks b.tenant_id.val ++ [b] from
          (storeGet_storePush s.blocks b.tenant_id.val b.tenant_id.val b).trans (by simp)]
      simp

/-- C8 amended witness: the lock-failure law applied to the concrete
poisoned store and, for the success side, to the fresh store. -/
theorem lock_failure_spec_witness :
    (poisonedState.append blk1 = Except.error lockPoisonedError ∧
      poisonedState.get_blocks tenantA = Except.error lockPoisonedError ∧
      poisonedState.get_block blk1.id = Except.error lockPoisonedError ∧
      poisonedState.count tenantA = Except.error lockPoisonedError ∧
      lockPoisonedError.code = ErrorCode.Internal ∧
      lockPoisonedError.code ≠ ErrorCode.StorageError)
    ∧ ∃ s'', InMemoryLedgerStorage.new.append blk1 = Except.ok s'' ∧
        blk1 ∈ storeGet s''.blocks blk1.tenant_id.val :=
  ⟨(lock_failure_spec poisonedState blk1 tenantA blk1.id).1 rfl,
   (lock_failure_spec InMemoryLedgerStorage.new blk1 tenantA blk1.id).2 rfl⟩

/-- C9: is_valid holds exactly when the hash string has 64 characters all
of which are ASCII hex digits; in particular the all-zero genesis hash is
valid. (The Rust length test counts UTF-8 bytes, but on all-hex content
byte count and character count coincide, so the characterization is
exact.) -/
theorem block_hash_is_valid_spec :
    (∀ h : BlockHash, h.is_valid = true ↔
      (h.val.length = 64 ∧ ∀ c ∈ h.val.data, isAsciiHexdigit c = true))
    ∧ BlockHash.genesis.is_valid = true := by
  constructor
  · intro h
    unfold BlockHash.is_valid
    rw [Bool.and_eq_true]
    constructor
    · rintro ⟨hlen, hall⟩
      have hall' : ∀ c ∈ h.val.data, isAsciiHexdigit c = true := by
        intro c hc
        exact List.all_eq_true.mp hall c hc
      refine ⟨?_, hall'⟩
      have hlen' : (strBytes h.val).length = 64 := by simpa using hlen
      have hflat := flatMap_utf8_length h.val.data hall'
      calc h.val.length = h.val.data.length := rfl
        _ = (h.val.data.flatMap utf8Bytes).length := hflat.symm
        _ = 64 := hlen'
    · rintro ⟨hlen, hall⟩
      refine ⟨?_, List.all_eq_true.mpr hall⟩
      have hflat := flatMap_utf8_length h.val.data hall
      have : (strBytes h.val).length = 64 := by
        calc (strBytes h.val).length = h.val.data.length := hflat
          _ = h.val.length := rfl
          _ = 64 := hlen
      simpa using this
  · decide

/-- C9 witness: the characterization instantiated at the genesis hash. -/
theorem block_hash_is_valid_spec_witness :
    BlockHash.genesis.is_valid = true :=
  block_hash_is_valid_spec.2
